import Mathlib

/-!
A shallow embedding of `src/cppcore/src/Lattice.cpp` (the tight-binding
lattice builder of pybinding's core).  Complex doubles are modelled as
Gaussian rationals, `Vector3f`/`Cartesian` as triples of rationals,
`MatrixXcd` as a sized row-major list of entries, and the `std::map`
registries as name-sorted association lists (mirroring `std::map`'s
ordered iteration).  Every mutating member function is embedded as a
function returning the post-call state together with an optional error,
so that partial mutation before a `throw` is observable, exactly as in
the C++ (which mutates `*this` in place and lets exceptions escape).
-/

set_option maxHeartbeats 1000000
set_option maxRecDepth 100000

namespace PB

/-- Model of `std::complex<double>`: exact Gaussian rationals (the float
arithmetic of the source is idealised as exact arithmetic). -/
structure CQ where
  re : ℚ
  im : ℚ
deriving DecidableEq

/-- Complex conjugate. -/
def CQ.conj (a : CQ) : CQ := ⟨a.re, -a.im⟩

/-- The complex zero. -/
def CQ.zero : CQ := ⟨0, 0⟩

/-- Model of Eigen's `MatrixXcd`: explicit shape plus row-major data. -/
structure Mat where
  rows : Nat
  cols : Nat
  data : List CQ
deriving DecidableEq

/-- Coefficient access `m(i, j)` (row-major). -/
def Mat.entry (m : Mat) (i j : Nat) : CQ := m.data.getD (i * m.cols + j) CQ.zero

/-- Eigen's `adjoint()`: the conjugate transpose. -/
def Mat.adjoint (m : Mat) : Mat :=
  ⟨m.cols, m.rows,
   (List.range m.cols).flatMap (fun i => (List.range m.rows).map (fun j => (m.entry j i).conj))⟩

/-- Eigen's `isUpperTriangular()` (the float tolerance is idealised as
exact zero): every coefficient strictly below the main diagonal is zero. -/
def Mat.isUpperTriangular (m : Mat) : Prop :=
  ∀ i < m.rows, ∀ j < m.cols, j < i → m.entry i j = CQ.zero

instance (m : Mat) : Decidable m.isUpperTriangular := by
  unfold Mat.isUpperTriangular; infer_instance

/-- `m.diagonal().imag().isZero()`: the main diagonal is real. -/
def Mat.diagIsReal (m : Mat) : Prop :=
  ∀ i < min m.rows m.cols, (m.entry i i).im = 0

instance (m : Mat) : Decidable m.diagIsReal := by
  unfold Mat.diagIsReal; infer_instance

/-- `MatrixXcd::Constant(1, 1, energy)`. -/
def matScalar (e : CQ) : Mat := ⟨1, 1, [e]⟩

/-- The square zero matrix with the given real vector on its diagonal
(the real-vector overload's promotion in `Lattice::add_sublattice`). -/
def matFromVec (v : List ℚ) : Mat :=
  ⟨v.length, v.length,
   (List.range v.length).flatMap (fun i =>
     (List.range v.length).map (fun j => if i = j then ⟨v.getD i 0, 0⟩ else CQ.zero))⟩

/-- Model of `Cartesian` (`Vector3f`): three exact rational coordinates. -/
structure Cart where
  x : ℚ
  y : ℚ
  z : ℚ
deriving DecidableEq

/-- The zero vector. -/
def Cart.zero : Cart := ⟨0, 0, 0⟩

/-- Component access `v[i]` (0, 1, 2 = x, y, z). -/
def Cart.comp (c : Cart) : Nat → ℚ
  | 0 => c.x
  | 1 => c.y
  | 2 => c.z
  | _ => 0

/-- Model of `Index3D`: a relative unit-cell offset with integer components. -/
structure Idx3 where
  x : Int
  y : Int
  z : Int
deriving DecidableEq

/-- `Index3D::Zero()`. -/
def Idx3.zero : Idx3 := ⟨0, 0, 0⟩

/-- Componentwise negation `-index`. -/
def Idx3.neg (a : Idx3) : Idx3 := ⟨-a.x, -a.y, -a.z⟩

/-- `Lattice::Sublattice`: position, onsite-energy matrix, dense unique id
and alias id. -/
structure Sublattice where
  position : Cart
  energy : Mat
  unique_id : Nat
  alias_id : Nat
deriving DecidableEq

/-- `Lattice::HoppingTerm`: relative cell offset plus source and
destination sublattice ids (`from` is a Lean keyword, hence `from_`). -/
structure HoppingTerm where
  relative_index : Idx3
  from_ : Nat
  to_ : Nat
deriving DecidableEq

/-- `Lattice::HoppingFamily`: energy matrix, dense unique id, term list. -/
structure HoppingFamily where
  energy : Mat
  unique_id : Nat
  terms : List HoppingTerm
deriving DecidableEq

/-- Every distinct `throw` site of `Lattice.cpp`, as an abstract error kind
(the message strings are abstracted into constructors). -/
inductive Err where
  | onsiteNotSquare
  | onsiteDiagNotReal
  | onsiteNotHermitian
  | blankSublatticeName
  | sublatticeCapacity
  | sublatticeNameTaken (name : String)
  | blankHoppingName
  | hoppingCapacity
  | hoppingNameTaken (name : String)
  | zeroIndexSameSublattice
  | noSuchSublattice (name : String)
  | noSuchHoppingFamily (name : String)
  | hoppingSizeMismatch
  | duplicateHopping
  | offsetTooLarge
deriving DecidableEq

/-- The `Lattice` state: primitive vectors, coordinate-origin offset,
minimum-neighbor hint, and the two name-keyed registries.  `std::map`
iterates in key order, so the registries are name-sorted association
lists kept sorted by `mapSet`. -/
structure Lattice where
  vectors : List Cart
  offset : Cart
  min_neighbors : Int
  sublattices : List (String × Sublattice)
  hoppings : List (String × HoppingFamily)
deriving DecidableEq

/-- `std::map`'s key order: `std::string`'s lexicographic comparison,
modelled on the character sequence (identical to the byte order on the
ASCII names this model handles). -/
def strLt (a b : String) : Prop := a.data < b.data

instance (a b : String) : Decidable (strLt a b) := by
  unfold strLt; infer_instance

/-- Sorted insertion-or-assignment, the model of `map[key] = value` /
`map.insert(...)` on a fresh key: keeps the association list ordered by
name exactly as `std::map` keeps its keys. -/
def mapSet (k : String) (v : α) : List (String × α) → List (String × α)
  | [] => [(k, v)]
  | (k', v') :: rest =>
    if k = k' then (k, v) :: rest
    else if strLt k k' then (k, v) :: (k', v') :: rest
    else (k', v') :: mapSet k v rest

/-- In-place update of the record stored under an existing key, the model
of `map[key].field.push_back(...)`. -/
def mapUpdate (k : String) (f : α → α) : List (String × α) → List (String × α)
  | [] => []
  | (k', v') :: rest =>
    if k = k' then (k', f v') :: rest else (k', v') :: mapUpdate k f rest

/-- `Lattice::Lattice(a1, a2, a3)`: keeps `a1`, then appends each of
`a2`, `a3` that is nonzero (`isZero` idealised as exact zero). -/
def latticeNew (a1 a2 a3 : Cart) : Lattice :=
  { vectors := [a1] ++ (if a2 = Cart.zero then [] else [a2])
      ++ (if a3 = Cart.zero then [] else [a3])
    offset := Cart.zero
    min_neighbors := 1
    sublattices := []
    hoppings := [] }

/-- `Lattice::ndim()`: the number of stored primitive vectors. -/
def ndim (L : Lattice) : Nat := L.vectors.length

/-- `Lattice::nsub()`: the number of registered sublattices. -/
def nsub (L : Lattice) : Nat := L.sublattices.length

/-- Modelled from the spec: `std::numeric_limits<sub_id>::max()` — the
header defining `sub_id` is not under `src/`; the spec only says the
registry is "bounded by the identifier's representable range", and a
signed 8-bit id is assumed as in pybinding's headers. -/
def sub_id_max : Nat := 127

/-- Modelled from the spec: `std::numeric_limits<hop_id>::max()`, same
assumption as `sub_id_max`. -/
def hop_id_max : Nat := 127

/-- `Lattice::register_sublattice`: validates the name and capacity and
returns the next dense id (`sublattices.size()`); mutation is left to the
caller, exactly as in the source. -/
def register_sublattice (L : Lattice) (name : String) : Except Err Nat :=
  if name = "" then .error .blankSublatticeName
  else if sub_id_max < L.sublattices.length then .error .sublatticeCapacity
  else if (L.sublattices.lookup name).isSome then .error (.sublatticeNameTaken name)
  else .ok L.sublattices.length

/-- `Lattice::add_sublattice` (matrix overload): shape validation, then
registration, then insertion of `{position, energy, id, id}`. -/
def add_sublattice (L : Lattice) (name : String) (position : Cart) (onsite_energy : Mat) :
    Lattice × Option Err :=
  if onsite_energy.rows ≠ onsite_energy.cols then (L, some .onsiteNotSquare)
  else if ¬ onsite_energy.diagIsReal then (L, some .onsiteDiagNotReal)
  else if ¬ onsite_energy.isUpperTriangular ∧ onsite_energy ≠ onsite_energy.adjoint then
    (L, some .onsiteNotHermitian)
  else
    match register_sublattice L name with
    | .error e => (L, some e)
    | .ok uid =>
      ({ L with sublattices := mapSet name ⟨position, onsite_energy, uid, uid⟩ L.sublattices },
       none)

/-- `Lattice::add_sublattice` (scalar overload): promotes to a 1×1 matrix. -/
def add_sublattice_scalar (L : Lattice) (name : String) (position : Cart) (e : ℚ) :
    Lattice × Option Err :=
  add_sublattice L name position (matScalar ⟨e, 0⟩)

/-- `Lattice::add_sublattice` (real-vector overload): promotes to a
diagonal matrix. -/
def add_sublattice_vector (L : Lattice) (name : String) (position : Cart) (v : List ℚ) :
    Lattice × Option Err :=
  add_sublattice L name position (matFromVec v)

/-- `Lattice::add_alias`: looks up the original, registers the alias name,
stores the original's energy with the new unique id and the original's
`unique_id` as the alias id. -/
def add_alias (L : Lattice) (alias_name original_name : String) (position : Cart) :
    Lattice × Option Err :=
  match L.sublattices.lookup original_name with
  | none => (L, some (.noSuchSublattice original_name))
  | some original =>
    match register_sublattice L alias_name with
    | .error e => (L, some e)
    | .ok uid =>
      ({ L with sublattices :=
          mapSet alias_name ⟨position, original.energy, uid, original.unique_id⟩ L.sublattices },
       none)

/-- `Lattice::register_hopping_energy` (matrix overload): blank-name and
capacity checks, then insertion with dense id = current size; a duplicate
name leaves the map unchanged and fails. -/
def register_hopping_energy (L : Lattice) (name : String) (energy : Mat) :
    Lattice × Option Err :=
  if name = "" then (L, some .blankHoppingName)
  else if hop_id_max < L.hoppings.length then (L, some .hoppingCapacity)
  else if (L.hoppings.lookup name).isSome then (L, some (.hoppingNameTaken name))
  else ({ L with hoppings := mapSet name ⟨energy, L.hoppings.length, []⟩ L.hoppings }, none)

/-- `Lattice::add_hopping` (named-family overload): zero-offset check,
name resolution, dimension check, bidirectional duplicate scan over every
family, then append of the new term. -/
def add_hopping (L : Lattice) (relative_index : Idx3) (from_sub to_sub : String)
    (hopping_family_name : String) : Lattice × Option Err :=
  if from_sub = to_sub ∧ relative_index = Idx3.zero then (L, some .zeroIndexSameSublattice)
  else
    match L.sublattices.lookup from_sub with
    | none => (L, some (.noSuchSublattice from_sub))
    | some fro =>
      match L.sublattices.lookup to_sub with
      | none => (L, some (.noSuchSublattice to_sub))
      | some toS =>
        match L.hoppings.lookup hopping_family_name with
        | none => (L, some (.noSuchHoppingFamily hopping_family_name))
        | some fam =>
          if fro.energy.rows ≠ fam.energy.rows ∨ toS.energy.cols ≠ fam.energy.cols then
            (L, some .hoppingSizeMismatch)
          else if ∃ p ∈ L.hoppings, ∃ h ∈ p.2.terms,
              (relative_index = h.relative_index ∧ fro.unique_id = h.from_ ∧
                toS.unique_id = h.to_) ∨
              (relative_index = h.relative_index.neg ∧ fro.unique_id = h.to_ ∧
                toS.unique_id = h.from_) then
            (L, some .duplicateHopping)
          else
            let push := fun f : HoppingFamily =>
              { f with terms := f.terms ++ [⟨relative_index, fro.unique_id, toS.unique_id⟩] }
            ({ L with hoppings := mapUpdate hopping_family_name push L.hoppings }, none)

/-- The anonymous family name `"__anonymous__{}"_format(hoppings.size())`. -/
def anonymous_name (L : Lattice) : String := "__anonymous__" ++ toString L.hoppings.length

/-- `Lattice::add_hopping` (raw-matrix-energy overload): reuses the first
family with an identical energy, else registers an anonymous family, then
delegates to the named overload. -/
def add_hopping_energy (L : Lattice) (relative_index : Idx3) (from_sub to_sub : String)
    (energy : Mat) : Lattice × Option Err :=
  match L.hoppings.find? (fun p => p.2.energy == energy) with
  | some p => add_hopping L relative_index from_sub to_sub p.1
  | none =>
    match register_hopping_energy L (anonymous_name L) energy with
    | (L2, some e) => (L2, some e)
    | (L2, none) => add_hopping L2 relative_index from_sub to_sub (anonymous_name L)

/-- `Lattice::add_hopping` (raw-scalar-energy overload). -/
def add_hopping_scalar (L : Lattice) (relative_index : Idx3) (from_sub to_sub : String)
    (e : CQ) : Lattice × Option Err :=
  add_hopping_energy L relative_index from_sub to_sub (matScalar e)

/-- 2×2 determinant of `[[a, b], [c, d]]`. -/
def det2 (a b c d : ℚ) : ℚ := a * d - b * c

/-- 3×3 determinant, columns `u`, `v`, `w`. -/
def det3 (u v w : Cart) : ℚ :=
  u.x * det2 v.y w.y v.z w.z - v.x * det2 u.y w.y u.z w.z + w.x * det2 u.y v.y u.z v.z

/-- `Lattice::translate_coordinates`: solves `lattice_matrix * v = p` where
the matrix's columns are the primitive vectors truncated to `ndim`
components and `p` is the position's first `ndim` components; the unused
higher components of the result stay zero.  The float QR solve of the
source is modelled as the exact solution by Cramer's rule (for a singular
matrix the rational division by a zero determinant yields zero). -/
def translate_coordinates (L : Lattice) (position : Cart) : Cart :=
  match L.vectors with
  | [v0] => ⟨position.x / v0.x, 0, 0⟩
  | [v0, v1] =>
    let d := det2 v0.x v1.x v0.y v1.y
    ⟨det2 position.x v1.x position.y v1.y / d, det2 v0.x position.x v0.y position.y / d, 0⟩
  | [v0, v1, v2] =>
    let d := det3 v0 v1 v2
    ⟨det3 position v1 v2 / d, det3 v0 position v2 / d, det3 v0 v1 position / d⟩
  | _ => Cart.zero

/-- `Lattice::set_offset`: rejects the position if any fractional
component of `translate_coordinates(position)` exceeds 0.55 in magnitude,
else stores it as the offset. -/
def set_offset (L : Lattice) (position : Cart) : Lattice × Option Err :=
  if 11 / 20 < |(translate_coordinates L position).x| ∨
      11 / 20 < |(translate_coordinates L position).y| ∨
      11 / 20 < |(translate_coordinates L position).z| then
    (L, some .offsetTooLarge)
  else ({ L with offset := position }, none)

/-- `Lattice::with_offset`: copies the lattice and calls `set_offset` on
the copy; an error from `set_offset` propagates. -/
def with_offset (L : Lattice) (position : Cart) : Lattice × Option Err :=
  set_offset L position

/-- `Lattice::with_min_neighbors`: copies the lattice with a new
minimum-neighbor hint. -/
def with_min_neighbors (L : Lattice) (number : Int) : Lattice :=
  { L with min_neighbors := number }

/-- A compiled hopping entry of the optimized structure: relative offset,
neighboring sublattice id, hopping-family id, conjugate flag. -/
structure Hopping where
  relative_index : Idx3
  to_ : Nat
  id : Nat
  is_conjugate : Bool
deriving DecidableEq

/-- One site record of `OptimizedLatticeStructure`. -/
structure OptSite where
  position : Cart
  alias_ : Nat
  hoppings : List Hopping
deriving DecidableEq

/-- The all-default site record a freshly allocated slot holds. -/
def OptSite.empty : OptSite := ⟨Cart.zero, 0, []⟩

/-- Update of the element at index `i` (out of range: no-op), the model of
`opt_structure[i]` assignments. -/
def listSet : List α → Nat → (α → α) → List α
  | [], _, _ => []
  | a :: l, 0, f => f a :: l
  | a :: l, n + 1, f => a :: listSet l n f

/-- `opt_structure[i].hoppings.push_back(h)`. -/
def pushHop (l : List OptSite) (i : Nat) (h : Hopping) : List OptSite :=
  listSet l i (fun s => { s with hoppings := s.hoppings ++ [h] })

/-- The body of the term loop of `Lattice::optimized_structure`: pushes the
forward entry `(d, to, id, false)` at the source site and the conjugate
entry `(-d, from, id, true)` at the destination site. -/
def compileTerm (fid : Nat) (acc : List OptSite) (t : HoppingTerm) : List OptSite :=
  pushHop (pushHop acc t.from_ ⟨t.relative_index, t.to_, fid, false⟩)
    t.to_ ⟨t.relative_index.neg, t.from_, fid, true⟩

/-- The freshly allocated structure: `nsub` default site records
(`OptimizedLatticeStructure(nsub())`). -/
def initSites (L : Lattice) : List OptSite := List.replicate (nsub L) OptSite.empty

/-- The first loop of `Lattice::optimized_structure`: writes each
sublattice's position and alias id at its unique id's slot. -/
def baseSites (L : Lattice) : List OptSite :=
  L.sublattices.foldl
    (fun acc p => listSet acc p.2.unique_id
      (fun s => { s with position := p.2.position, alias_ := p.2.alias_id })) (initSites L)

/-- `Lattice::optimized_structure`: allocates `nsub` slots, writes each
sublattice's position and alias id at its unique id, then for every term
of every family pushes the two compiled entries via `compileTerm`. -/
def optimized_structure (L : Lattice) : List OptSite :=
  L.hoppings.foldl (fun acc p => p.2.terms.foldl (compileTerm p.2.unique_id) acc) (baseSites L)

/-- Sum over all compiled sites of the number of compiled hopping entries. -/
def sumHops (l : List OptSite) : Nat := (l.map (fun s => s.hoppings.length)).sum

/-- Total number of registered hopping terms across all families. -/
def totalTerms (L : Lattice) : Nat := (L.hoppings.map (fun p => p.2.terms.length)).sum

/-! ### Concrete fixtures

The spec's worked scenario: a 2D square lattice with primitive vectors
`(1,0,0)` and `(0,1,0)`, one sublattice `"A"` at the origin with scalar
onsite energy 0, a hopping family `"t"` with energy −1, and the term
`((1,0,0), "A", "A")`, built through the embedded API. -/

def latSq : Lattice := latticeNew ⟨1, 0, 0⟩ ⟨0, 1, 0⟩ Cart.zero

def latSqA : Lattice := (add_sublattice latSq "A" Cart.zero (matScalar ⟨0, 0⟩)).1

def latSqAt : Lattice := (register_hopping_energy latSqA "t" (matScalar ⟨-1, 0⟩)).1

def latSqFull : Lattice := (add_hopping latSqAt ⟨1, 0, 0⟩ "A" "A" "t").1

/-! ### Registry map lemmas -/

theorem lookup_mapSet_self (k : String) (v : α) :
    ∀ l : List (String × α), (mapSet k v l).lookup k = some v := by
  intro l
  induction l with
  | nil => simp [mapSet, List.lookup]
  | cons p rest ih =>
    obtain ⟨k', v'⟩ := p
    by_cases hk : k = k'
    · simp [mapSet, hk, List.lookup]
    · have hbf : (k == k') = false := beq_eq_false_iff_ne.mpr hk
      by_cases hlt : strLt k k'
      · simp [mapSet, hk, hlt, List.lookup]
      · simpa [mapSet, hk, hlt, List.lookup, hbf] using ih

theorem length_mapSet (k : String) (v : α) :
    ∀ l : List (String × α), l.lookup k = none → (mapSet k v l).length = l.length + 1 := by
  intro l
  induction l with
  | nil => simp [mapSet]
  | cons p rest ih =>
    obtain ⟨k', v'⟩ := p
    intro hnone
    have hk : k ≠ k' := by
      intro h
      subst h
      simp [List.lookup] at hnone
    have hbf : (k == k') = false := beq_eq_false_iff_ne.mpr hk
    have hrest : rest.lookup k = none := by
      simpa [List.lookup, hbf] using hnone
    by_cases hlt : strLt k k'
    · simp [mapSet, hk, hlt]
    · simp [mapSet, hk, hlt, ih hrest]

theorem sublattices_mapSet_hoppings (L : Lattice) (k : String) (f : HoppingFamily) :
    ({ L with hoppings := mapSet k f L.hoppings } : Lattice).sublattices = L.sublattices := rfl

/-! ### C6 -/

/-- C6: every `add_hopping` call (named-family, raw-matrix or raw-scalar
overload) whose relative index is the zero vector and whose source and
destination sublattice names coincide fails, for every lattice state,
every family name and every energy value: the named overload always fails
with the zero-offset error (the check runs before any name resolution or
shape check), and the raw overloads always fail (with the zero-offset
error, or with a registration error if synthesizing the anonymous family
itself fails first). -/
theorem add_hopping_zero_offset_same_sublattice_fails (L : Lattice) (s fname : String)
    (m : Mat) (e : CQ) :
    add_hopping L Idx3.zero s s fname = (L, some Err.zeroIndexSameSublattice) ∧
    (add_hopping_energy L Idx3.zero s s m).2 ≠ none ∧
    (add_hopping_scalar L Idx3.zero s s e).2 ≠ none := by
  have hnamed : ∀ (L0 : Lattice) (f0 : String),
      add_hopping L0 Idx3.zero s s f0 = (L0, some Err.zeroIndexSameSublattice) := by
    intro L0 f0
    simp [add_hopping]
  have hraw : ∀ (L0 : Lattice) (m0 : Mat), (add_hopping_energy L0 Idx3.zero s s m0).2 ≠ none := by
    intro L0 m0
    unfold add_hopping_energy
    cases hf : L0.hoppings.find? (fun p => p.2.energy == m0) with
    | some p => simp [hnamed]
    | none =>
      rcases hr : register_hopping_energy L0 (anonymous_name L0) m0 with ⟨L2, oe⟩
      cases oe with
      | some e0 => simp
      | none => simp [hnamed]
  exact ⟨hnamed L fname, hraw L m, hraw L (matScalar e)⟩

/-! ### C9 -/

/-- C9: the constructor silently discards a zero `a2`/`a3`: the stored
primitive-vector sequence is `a1` followed by the nonzero ones among
`a2`, `a3`, the dimensionality is one plus the number of nonzero vectors
among `a2`, `a3`, and when `a2` is zero but `a3` is not, `a3` becomes the
second primitive vector. -/
theorem lattice_ctor_discards_zero_vectors (a1 a2 a3 : Cart) :
    (latticeNew a1 a2 a3).vectors =
      [a1] ++ (if a2 = Cart.zero then [] else [a2]) ++ (if a3 = Cart.zero then [] else [a3]) ∧
    ndim (latticeNew a1 a2 a3) =
      1 + (if a2 = Cart.zero then 0 else 1) + (if a3 = Cart.zero then 0 else 1) ∧
    (a2 = Cart.zero → a3 ≠ Cart.zero → (latticeNew a1 a2 a3).vectors.getD 1 Cart.zero = a3) := by
  refine ⟨rfl, ?_, ?_⟩
  · by_cases h2 : a2 = Cart.zero <;> by_cases h3 : a3 = Cart.zero <;>
      simp [latticeNew, ndim, h2, h3]
  · intro h2 h3
    simp [latticeNew, h2, h3]

/-- Witness for C9 at a concrete input: with `a2 = 0` and `a3 = (0,0,1)`,
the nonzero `a3` slides into the second slot. -/
theorem lattice_ctor_discards_zero_vectors_witness :
    (latticeNew ⟨1, 0, 0⟩ Cart.zero ⟨0, 0, 1⟩).vectors.getD 1 Cart.zero = ⟨0, 0, 1⟩ :=
  (lattice_ctor_discards_zero_vectors ⟨1, 0, 0⟩ Cart.zero ⟨0, 0, 1⟩).2.2 rfl (by decide)

/-! ### C4 -/

/-- C4: with a fresh non-blank name and a registry below capacity,
`add_sublattice` succeeds exactly when the onsite matrix is square with a
real diagonal and is upper-triangular or equal to its own conjugate
transpose; it fails on a non-square shape, a complex diagonal, or a
matrix that is neither upper-triangular nor Hermitian. -/
theorem add_sublattice_onsite_validation (L : Lattice) (name : String) (pos : Cart) (m : Mat)
    (h1 : name ≠ "") (h2 : L.sublattices.lookup name = none)
    (h3 : L.sublattices.length ≤ sub_id_max) :
    (add_sublattice L name pos m).2 = none ↔
      m.rows = m.cols ∧ m.diagIsReal ∧ (m.isUpperTriangular ∨ m = m.adjoint) := by
  have hcap : ¬ sub_id_max < L.sublattices.length := Nat.not_lt.mpr h3
  by_cases a : m.rows = m.cols
  · by_cases b : m.diagIsReal
    · by_cases c : m.isUpperTriangular ∨ m = m.adjoint
      · have c' : ¬(¬ m.isUpperTriangular ∧ m ≠ m.adjoint) := by tauto
        simp [add_sublattice, register_sublattice, a, b, c, c', h1, h2, hcap]
      · have c' : ¬ m.isUpperTriangular ∧ m ≠ m.adjoint := by tauto
        simp [add_sublattice, a, b, c, c']
    · simp [add_sublattice, a, b]
  · simp [add_sublattice, a]

/-- Witness for C4 at a concrete input: a 1×1 real onsite matrix on the
empty square lattice is accepted. -/
theorem add_sublattice_onsite_validation_witness :
    (add_sublattice latSq "A" Cart.zero (matScalar ⟨0, 0⟩)).2 = none :=
  (add_sublattice_onsite_validation latSq "A" Cart.zero (matScalar ⟨0, 0⟩) (by decide) rfl
    (by decide)).mpr ⟨rfl, by decide, Or.inl (by decide)⟩

/-! ### C5 -/

theorem register_sublattice_ok (L : Lattice) (name : String) (uid : Nat)
    (h : register_sublattice L name = .ok uid) :
    uid = L.sublattices.length ∧ L.sublattices.lookup name = none := by
  unfold register_sublattice at h
  split at h
  · cases h
  · split at h
    · cases h
    · split at h
      · cases h
      · rename_i hsome
        refine ⟨by injection h with h'; exact h'.symm, ?_⟩
        exact Option.not_isSome_iff_eq_none.mp hsome

/-- C5: a successful `add_sublattice` or `add_alias` stores, under the new
name, a record whose unique identifier equals the number of sublattices
registered before the call, and grows the registry by one — identifiers
are therefore dense, zero-based and monotone in registration order. -/
theorem sublattice_id_equals_prior_count (L : Lattice) (name oname : String) (pos : Cart)
    (m : Mat) :
    (∀ L', add_sublattice L name pos m = (L', none) →
      ∃ s, L'.sublattices.lookup name = some s ∧ s.unique_id = nsub L ∧
        nsub L' = nsub L + 1) ∧
    (∀ L', add_alias L name oname pos = (L', none) →
      ∃ s, L'.sublattices.lookup name = some s ∧ s.unique_id = nsub L ∧
        nsub L' = nsub L + 1) := by
  constructor
  · intro L' h
    unfold add_sublattice at h
    split at h
    · simp at h
    · split at h
      · simp at h
      · split at h
        · simp at h
        · cases hr : register_sublattice L name with
          | error e => rw [hr] at h; simp at h
          | ok uid =>
            rw [hr] at h
            obtain ⟨huid, hnone⟩ := register_sublattice_ok L name uid hr
            simp only [Prod.mk.injEq] at h
            obtain ⟨hL', -⟩ := h
            refine ⟨⟨pos, m, uid, uid⟩, ?_, huid, ?_⟩
            · rw [← hL']
              exact lookup_mapSet_self name _ L.sublattices
            · show L'.sublattices.length = L.sublattices.length + 1
              rw [← hL']
              exact length_mapSet name _ L.sublattices hnone
  · intro L' h
    unfold add_alias at h
    split at h
    · simp at h
    · rename_i orig horig
      cases hr : register_sublattice L name with
      | error e => rw [hr] at h; simp at h
      | ok uid =>
        rw [hr] at h
        obtain ⟨huid, hnone⟩ := register_sublattice_ok L name uid hr
        simp only [Prod.mk.injEq] at h
        obtain ⟨hL', -⟩ := h
        refine ⟨⟨pos, orig.energy, uid, orig.unique_id⟩, ?_, huid, ?_⟩
        · rw [← hL']
          exact lookup_mapSet_self name _ L.sublattices
        · show L'.sublattices.length = L.sublattices.length + 1
          rw [← hL']
          exact length_mapSet name _ L.sublattices hnone

/-- Witness for C5 at a concrete input: adding `"A"` to the empty square
lattice assigns identifier 0 and grows the registry to size 1. -/
theorem sublattice_id_equals_prior_count_witness :
    ∃ s, latSqA.sublattices.lookup "A" = some s ∧ s.unique_id = nsub latSq ∧
      nsub latSqA = nsub latSq + 1 :=
  (sublattice_id_equals_prior_count latSq "A" "X" Cart.zero (matScalar ⟨0, 0⟩)).1 latSqA
    (by decide)

/-! ### C7 -/

/-- C7: `set_offset` accepts the position (storing it as the offset) when
every fractional component returned by `translate_coordinates` has
magnitude at most 0.55, and fails with the validation error (producing no
changed state) when some component exceeds 0.55 in magnitude. -/
theorem set_offset_threshold (L : Lattice) (p : Cart) :
    ((|(translate_coordinates L p).x| ≤ 11 / 20 ∧ |(translate_coordinates L p).y| ≤ 11 / 20 ∧
        |(translate_coordinates L p).z| ≤ 11 / 20) →
      set_offset L p = ({ L with offset := p }, none)) ∧
    ((11 / 20 < |(translate_coordinates L p).x| ∨ 11 / 20 < |(translate_coordinates L p).y| ∨
        11 / 20 < |(translate_coordinates L p).z|) →
      set_offset L p = (L, some Err.offsetTooLarge)) := by
  constructor
  · rintro ⟨h1, h2, h3⟩
    have hc : ¬(11 / 20 < |(translate_coordinates L p).x| ∨
        11 / 20 < |(translate_coordinates L p).y| ∨
        11 / 20 < |(translate_coordinates L p).z|) := by
      push_neg
      exact ⟨h1, h2, h3⟩
    simp only [set_offset]
    rw [if_neg hc]
  · intro h
    simp only [set_offset]
    rw [if_pos h]

/-- Witness for C7 at concrete inputs on the square lattice: fractional
x-component 1/2 is accepted, 3/5 is rejected. -/
theorem set_offset_threshold_witness :
    set_offset latSq ⟨1 / 2, 0, 7⟩ = ({ latSq with offset := ⟨1 / 2, 0, 7⟩ }, none) ∧
    set_offset latSq ⟨3 / 5, 0, 0⟩ = (latSq, some Err.offsetTooLarge) := by
  constructor
  · exact (set_offset_threshold latSq ⟨1 / 2, 0, 7⟩).1
      (by norm_num [translate_coordinates, latSq, latticeNew, det2, Cart.zero, abs])
  · exact (set_offset_threshold latSq ⟨3 / 5, 0, 0⟩).2
      (Or.inl (by norm_num [translate_coordinates, latSq, latticeNew, det2, Cart.zero, abs]))

/-! ### C10 -/

/-- C10: `translate_coordinates` reads only the first `ndim` components of
its argument and leaves every fractional component beyond `ndim` at zero;
consequently the accept/reject outcome of `set_offset` is unchanged by
altering components outside the spanned dimensions. -/
theorem translate_eq_nil (L : Lattice) (hv : L.vectors = []) (p : Cart) :
    translate_coordinates L p = Cart.zero := by
  unfold translate_coordinates
  rw [hv]

theorem translate_eq_one (L : Lattice) (v0 : Cart) (hv : L.vectors = [v0]) (p : Cart) :
    translate_coordinates L p = ⟨p.x / v0.x, 0, 0⟩ := by
  unfold translate_coordinates
  rw [hv]

theorem translate_eq_two (L : Lattice) (v0 v1 : Cart) (hv : L.vectors = [v0, v1]) (p : Cart) :
    translate_coordinates L p =
      ⟨det2 p.x v1.x p.y v1.y / det2 v0.x v1.x v0.y v1.y,
       det2 v0.x p.x v0.y p.y / det2 v0.x v1.x v0.y v1.y, 0⟩ := by
  unfold translate_coordinates
  rw [hv]

theorem translate_eq_three (L : Lattice) (v0 v1 v2 : Cart) (hv : L.vectors = [v0, v1, v2])
    (p : Cart) :
    translate_coordinates L p =
      ⟨det3 p v1 v2 / det3 v0 v1 v2, det3 v0 p v2 / det3 v0 v1 v2,
       det3 v0 v1 p / det3 v0 v1 v2⟩ := by
  unfold translate_coordinates
  rw [hv]

theorem translate_eq_big (L : Lattice) (v0 v1 v2 v3 : Cart) (rest : List Cart)
    (hv : L.vectors = v0 :: v1 :: v2 :: v3 :: rest) (p : Cart) :
    translate_coordinates L p = Cart.zero := by
  unfold translate_coordinates
  rw [hv]

theorem translate_coordinates_spanned_dimensions_only (L : Lattice) (p p' : Cart)
    (h : ∀ i, i < ndim L → p.comp i = p'.comp i) :
    translate_coordinates L p = translate_coordinates L p' ∧
    (∀ i, ndim L ≤ i → (translate_coordinates L p).comp i = 0) ∧
    (set_offset L p).2 = (set_offset L p').2 := by
  have key : translate_coordinates L p = translate_coordinates L p' ∧
      (∀ i, ndim L ≤ i → (translate_coordinates L p).comp i = 0) := by
    unfold ndim at h
    rcases hv : L.vectors with - | ⟨v0, - | ⟨v1, - | ⟨v2, - | ⟨v3, rest'⟩⟩⟩⟩
    · rw [translate_eq_nil L hv p, translate_eq_nil L hv p']
      refine ⟨rfl, fun i _ => ?_⟩
      rcases i with - | - | - | i <;> rfl
    · rw [hv] at h
      have hx : p.x = p'.x := h 0 (by simp)
      rw [translate_eq_one L v0 hv p, translate_eq_one L v0 hv p', hx]
      refine ⟨rfl, fun i hi => ?_⟩
      unfold ndim at hi
      rw [hv] at hi
      rcases i with - | - | - | i <;> first | rfl | simp at hi
    · rw [hv] at h
      have hx : p.x = p'.x := h 0 (by simp)
      have hy : p.y = p'.y := h 1 (by simp)
      rw [translate_eq_two L v0 v1 hv p, translate_eq_two L v0 v1 hv p', hx, hy]
      refine ⟨rfl, fun i hi => ?_⟩
      unfold ndim at hi
      rw [hv] at hi
      rcases i with - | - | - | i <;> first | rfl | simp at hi
    · rw [hv] at h
      have hx : p.x = p'.x := h 0 (by simp)
      have hy : p.y = p'.y := h 1 (by simp)
      have hz : p.z = p'.z := h 2 (by simp)
      have hpp : p = p' := by
        cases p
        cases p'
        simp_all
      rw [translate_eq_three L v0 v1 v2 hv p, translate_eq_three L v0 v1 v2 hv p', hpp]
      refine ⟨rfl, fun i hi => ?_⟩
      unfold ndim at hi
      rw [hv] at hi
      rcases i with - | - | - | i <;> first | rfl | simp at hi
    · rw [translate_eq_big L v0 v1 v2 v3 rest' hv p, translate_eq_big L v0 v1 v2 v3 rest' hv p']
      refine ⟨rfl, fun i _ => ?_⟩
      rcases i with - | - | - | i <;> rfl
  refine ⟨key.1, key.2, ?_⟩
  simp only [set_offset, key.1]
  split <;> rfl

/-- Witness for C10 at a concrete input: on the 2D square lattice an
out-of-plane component (z = 7) does not change the `set_offset` outcome. -/
theorem translate_coordinates_spanned_dimensions_only_witness :
    (set_offset latSq ⟨0, 0, 7⟩).2 = (set_offset latSq ⟨0, 0, 0⟩).2 :=
  (translate_coordinates_spanned_dimensions_only latSq ⟨0, 0, 7⟩ ⟨0, 0, 0⟩
    (by decide)).2.2

/-! ### C8 (corrected) -/

/-- Counterexample to C8 as stated: `with_offset` does not return a new
lattice for *every* argument — on the square lattice the position
`(3/5, 0, 0)` has a fractional component above 0.55, so the call fails
(the success slot of the result is an error instead of `none`). -/
theorem with_offset_can_fail :
    (with_offset latSq ⟨3 / 5, 0, 0⟩).2 = some Err.offsetTooLarge := by
  norm_num [with_offset, set_offset, translate_coordinates, latSq, latticeNew, det2,
    Cart.zero, abs]

/-- C8 (amended): `with_min_neighbors` always returns a copy differing
from the receiver only in the minimum-neighbor hint; `with_offset`, when
the offset is valid, returns a copy differing only in the offset, and
otherwise raises leaving the (unchanged) receiver state; the receiver's
registries and offset are never modified. -/
theorem with_offset_min_neighbors_frame (L : Lattice) (p : Cart) (n : Int) :
    with_min_neighbors L n = { L with min_neighbors := n } ∧
    (∀ L', with_offset L p = (L', none) → L' = { L with offset := p }) ∧
    (∀ L' e, with_offset L p = (L', some e) → L' = L) := by
  refine ⟨rfl, ?_, ?_⟩
  · intro L' h
    unfold with_offset set_offset at h
    split at h
    · simp at h
    · simp only [Prod.mk.injEq] at h
      exact h.1.symm
  · intro L' e h
    unfold with_offset set_offset at h
    split at h
    · simp only [Prod.mk.injEq] at h
      exact h.1.symm
    · simp at h

/-- Witness for C8 (amended) at concrete inputs: a valid derived offset
copies the lattice with the new offset; an invalid one leaves the state
equal to the receiver. -/
theorem with_offset_min_neighbors_frame_witness :
    (with_offset latSq ⟨1 / 2, 0, 7⟩).1 = { latSq with offset := ⟨1 / 2, 0, 7⟩ } ∧
    (with_offset latSq ⟨3 / 5, 0, 0⟩).1 = latSq := by
  constructor
  · have hsnd : (with_offset latSq ⟨1 / 2, 0, 7⟩).2 = none := by
      norm_num [with_offset, set_offset, translate_coordinates, latSq, latticeNew, det2,
        Cart.zero, abs]
    exact (with_offset_min_neighbors_frame latSq ⟨1 / 2, 0, 7⟩ 1).2.1 _ (by rw [← hsnd])
  · have hsnd : (with_offset latSq ⟨3 / 5, 0, 0⟩).2 = some Err.offsetTooLarge := by
      norm_num [with_offset, set_offset, translate_coordinates, latSq, latticeNew, det2,
        Cart.zero, abs]
    exact (with_offset_min_neighbors_frame latSq ⟨3 / 5, 0, 0⟩ 1).2.2 _ Err.offsetTooLarge
      (by rw [← hsnd])

/-! ### C1 (corrected) -/

theorem register_hopping_energy_err_state (L : Lattice) (name : String) (m : Mat)
    (L2 : Lattice) (e : Err) (h : register_hopping_energy L name m = (L2, some e)) :
    L2 = L := by
  unfold register_hopping_energy at h
  split at h
  · simp only [Prod.mk.injEq] at h
    exact h.1.symm
  · split at h
    · simp only [Prod.mk.injEq] at h
      exact h.1.symm
    · split at h
      · simp only [Prod.mk.injEq] at h
        exact h.1.symm
      · simp at h

theorem register_hopping_energy_ok_state (L : Lattice) (name : String) (m : Mat)
    (L2 : Lattice) (h : register_hopping_energy L name m = (L2, none)) :
    L2 = { L with hoppings := mapSet name ⟨m, L.hoppings.length, []⟩ L.hoppings } := by
  unfold register_hopping_energy at h
  split at h
  · simp at h
  · split at h
    · simp at h
    · split at h
      · simp at h
      · simp only [Prod.mk.injEq] at h
        exact h.1.symm

/-- Every failing path of the named `add_hopping` overload leaves the
lattice state exactly as it was (all checks run before the single
mutation). -/
theorem add_hopping_error_state (L : Lattice) (d : Idx3) (a b f : String) (L' : Lattice)
    (e : Err) (h : add_hopping L d a b f = (L', some e)) : L' = L := by
  unfold add_hopping at h
  split at h
  · simp only [Prod.mk.injEq] at h
    exact h.1.symm
  · split at h
    · simp only [Prod.mk.injEq] at h
      exact h.1.symm
    · split at h
      · simp only [Prod.mk.injEq] at h
        exact h.1.symm
      · split at h
        · simp only [Prod.mk.injEq] at h
          exact h.1.symm
        · split at h
          · simp only [Prod.mk.injEq] at h
            exact h.1.symm
          · split at h
            · simp only [Prod.mk.injEq] at h
              exact h.1.symm
            · simp at h

/-- Counterexample to C1 as stated: on the single-sublattice square
lattice, a raw-energy `add_hopping` with zero relative index and equal
sublattice names fails, yet the hopping registry after the call holds a
newly registered anonymous family, so the registries are *not* in their
pre-call state. -/
theorem add_hopping_energy_failure_mutates_registry :
    (add_hopping_energy latSqA Idx3.zero "A" "A" (matScalar ⟨1, 0⟩)).2 =
      some Err.zeroIndexSameSublattice ∧
    (add_hopping_energy latSqA Idx3.zero "A" "A" (matScalar ⟨1, 0⟩)).1.hoppings ≠
      latSqA.hoppings := by
  constructor <;> decide

/-- C1 (amended): a failing named-overload `add_hopping` call leaves the
lattice unchanged; a failing raw-energy call leaves the sublattice
registry unchanged and appends no hopping term, but its hopping registry
is either unchanged or extended by exactly one freshly synthesized
anonymous family with an empty term list (registered before the failing
validation). -/
theorem add_hopping_failure_registry_state (L : Lattice) (d : Idx3) (a b fname : String)
    (m : Mat) :
    (∀ L' e, add_hopping L d a b fname = (L', some e) → L' = L) ∧
    (∀ L' e, add_hopping_energy L d a b m = (L', some e) →
      L'.sublattices = L.sublattices ∧
      (L'.hoppings = L.hoppings ∨
        L'.hoppings = mapSet (anonymous_name L) ⟨m, L.hoppings.length, []⟩ L.hoppings)) := by
  refine ⟨fun L' e h => add_hopping_error_state L d a b fname L' e h, ?_⟩
  intro L' e h
  unfold add_hopping_energy at h
  cases hf : L.hoppings.find? (fun p => p.2.energy == m) with
  | some p =>
    rw [hf] at h
    have hL' := add_hopping_error_state L d a b p.1 L' e h
    rw [hL']
    exact ⟨rfl, Or.inl rfl⟩
  | none =>
    rw [hf] at h
    rcases hr : register_hopping_energy L (anonymous_name L) m with ⟨L2, oe⟩
    rw [hr] at h
    cases oe with
    | some e0 =>
      have hL2 := register_hopping_energy_err_state L (anonymous_name L) m L2 e0 hr
      simp only [Prod.mk.injEq] at h
      rw [← h.1, hL2]
      exact ⟨rfl, Or.inl rfl⟩
    | none =>
      have hL2 := register_hopping_energy_ok_state L (anonymous_name L) m L2 hr
      have hL' := add_hopping_error_state L2 d a b (anonymous_name L) L' e h
      rw [hL', hL2]
      exact ⟨rfl, Or.inr rfl⟩

/-- Witness for C1 (amended) at the concrete failing raw-energy call: the
sublattice registry is unchanged and the hopping registry is exactly the
pre-call registry extended by the anonymous family. -/
theorem add_hopping_failure_registry_state_witness :
    (add_hopping_energy latSqA Idx3.zero "A" "A" (matScalar ⟨1, 0⟩)).1.sublattices =
      latSqA.sublattices ∧
    ((add_hopping_energy latSqA Idx3.zero "A" "A" (matScalar ⟨1, 0⟩)).1.hoppings =
        latSqA.hoppings ∨
      (add_hopping_energy latSqA Idx3.zero "A" "A" (matScalar ⟨1, 0⟩)).1.hoppings =
        mapSet (anonymous_name latSqA) ⟨matScalar ⟨1, 0⟩, latSqA.hoppings.length, []⟩
          latSqA.hoppings) :=
  (add_hopping_failure_registry_state latSqA Idx3.zero "A" "A" "t" (matScalar ⟨1, 0⟩)).2
    _ Err.zeroIndexSameSublattice (by decide)

/-! ### C3 -/

theorem Idx3.neg_eq_zero_iff (v : Idx3) : v.neg = Idx3.zero ↔ v = Idx3.zero := by
  cases v
  simp [Idx3.neg, Idx3.zero, Idx3.mk.injEq, neg_eq_zero]

/-- The square-lattice fixture extended by a second hopping family `"u"`
whose 2×2 energy matrix is dimension-incompatible with the 1-orbital
sublattice `"A"` (family registration never validates shape). -/
def latSqFullU : Lattice :=
  (register_hopping_energy latSqFull "u"
    ⟨2, 2, [⟨0, 0⟩, ⟨0, 0⟩, ⟨0, 0⟩, ⟨0, 0⟩]⟩).1

/-- Counterexample to C3 as stated: the lattice `latSqFullU` already
contains the term `((1,0,0), A, A)` (in family `"t"`), yet registering the
same term — or its conjugate — into family `"u"` fails with the
dimension-mismatch error, which is raised before the duplicate scan, and
not with a duplicate error. -/
theorem duplicate_into_mismatched_family_not_duplicate_error :
    add_hopping latSqFullU ⟨1, 0, 0⟩ "A" "A" "u" =
      (latSqFullU, some Err.hoppingSizeMismatch) ∧
    (add_hopping latSqFullU ⟨1, 0, 0⟩ "A" "A" "u").2 ≠ some Err.duplicateHopping ∧
    add_hopping latSqFullU (Idx3.neg ⟨1, 0, 0⟩) "A" "A" "u" =
      (latSqFullU, some Err.hoppingSizeMismatch) := by
  refine ⟨by decide, by decide, by decide⟩

/-- C3 (amended): once a term `(d, A, B)` is registered in some family, a
subsequent `add_hopping` of `(d, A, B)` into any family fails, and so does
a subsequent `add_hopping` of the conjugate `(−d, B, A)`; the error is the
duplicate error whenever the target family exists with matrix dimensions
compatible with the two sublattices, while an unknown family gives a
not-found error and a dimension-incompatible family gives the
size-mismatch error, raised before the duplicate scan. -/
theorem duplicate_and_conjugate_hopping_rejected
    (L : Lattice) (gname a b : String) (g : HoppingFamily)
    (sA sB : Sublattice) (t : HoppingTerm)
    (hg : (gname, g) ∈ L.hoppings) (ht : t ∈ g.terms)
    (ha : L.sublattices.lookup a = some sA) (hb : L.sublattices.lookup b = some sB)
    (hA : sA.unique_id = t.from_) (hB : sB.unique_id = t.to_)
    (hz : ¬(a = b ∧ t.relative_index = Idx3.zero)) :
    (∀ f : String, (add_hopping L t.relative_index a b f).2 ≠ none ∧
      (add_hopping L t.relative_index.neg b a f).2 ≠ none) ∧
    (∀ (f : String) (F1 : HoppingFamily), L.hoppings.lookup f = some F1 →
      sA.energy.rows = F1.energy.rows → sB.energy.cols = F1.energy.cols →
      add_hopping L t.relative_index a b f = (L, some Err.duplicateHopping)) ∧
    (∀ (f : String) (F2 : HoppingFamily), L.hoppings.lookup f = some F2 →
      sB.energy.rows = F2.energy.rows → sA.energy.cols = F2.energy.cols →
      add_hopping L t.relative_index.neg b a f = (L, some Err.duplicateHopping)) := by
  have hz2 : ¬(b = a ∧ t.relative_index.neg = Idx3.zero) := by
    rintro ⟨h1, h2⟩
    exact hz ⟨h1.symm, (Idx3.neg_eq_zero_iff t.relative_index).mp h2⟩
  refine ⟨fun f => ?_, fun f F1 hf1 hr1 hc1 => ?_, fun f F2 hf2 hr2 hc2 => ?_⟩
  · constructor
    · unfold add_hopping
      rw [if_neg hz]
      simp only [ha, hb]
      cases hf : L.hoppings.lookup f with
      | none => simp
      | some F =>
        dsimp only
        by_cases hsz : sA.energy.rows ≠ F.energy.rows ∨ sB.energy.cols ≠ F.energy.cols
        · rw [if_pos hsz]
          simp
        · rw [if_neg hsz, if_pos ⟨(gname, g), hg, t, ht, Or.inl ⟨rfl, hA, hB⟩⟩]
          simp
    · unfold add_hopping
      rw [if_neg hz2]
      simp only [hb, ha]
      cases hf : L.hoppings.lookup f with
      | none => simp
      | some F =>
        dsimp only
        by_cases hsz : sB.energy.rows ≠ F.energy.rows ∨ sA.energy.cols ≠ F.energy.cols
        · rw [if_pos hsz]
          simp
        · rw [if_neg hsz, if_pos ⟨(gname, g), hg, t, ht, Or.inr ⟨rfl, hB, hA⟩⟩]
          simp
  · unfold add_hopping
    rw [if_neg hz]
    simp only [ha, hb, hf1]
    rw [if_neg (by simp [hr1, hc1])]
    rw [if_pos ⟨(gname, g), hg, t, ht, Or.inl ⟨rfl, hA, hB⟩⟩]
  · unfold add_hopping
    rw [if_neg hz2]
    simp only [hb, ha, hf2]
    rw [if_neg (by simp [hr2, hc2])]
    rw [if_pos ⟨(gname, g), hg, t, ht, Or.inr ⟨rfl, hB, hA⟩⟩]

/-- Witness for C3 (amended) at the square-lattice scenario with the
extra mismatched family: re-adding `((1,0,0), "A", "A")` and its conjugate
through the compatible family `"t"` fails as a duplicate, and re-adding it
through the incompatible family `"u"` still fails. -/
theorem duplicate_and_conjugate_hopping_rejected_witness :
    add_hopping latSqFullU ⟨1, 0, 0⟩ "A" "A" "t" = (latSqFullU, some Err.duplicateHopping) ∧
    add_hopping latSqFullU (Idx3.neg ⟨1, 0, 0⟩) "A" "A" "t" =
      (latSqFullU, some Err.duplicateHopping) ∧
    (add_hopping latSqFullU ⟨1, 0, 0⟩ "A" "A" "u").2 ≠ none := by
  have h := duplicate_and_conjugate_hopping_rejected latSqFullU "t" "A" "A"
    ⟨matScalar ⟨-1, 0⟩, 0, [⟨⟨1, 0, 0⟩, 0, 0⟩]⟩ ⟨Cart.zero, matScalar ⟨0, 0⟩, 0, 0⟩
    ⟨Cart.zero, matScalar ⟨0, 0⟩, 0, 0⟩ ⟨⟨1, 0, 0⟩, 0, 0⟩
    (by decide) (by decide) (by decide) (by decide) (by decide) (by decide) (by decide)
  exact ⟨h.2.1 "t" ⟨matScalar ⟨-1, 0⟩, 0, [⟨⟨1, 0, 0⟩, 0, 0⟩]⟩ (by decide) (by decide)
      (by decide),
    h.2.2 "t" ⟨matScalar ⟨-1, 0⟩, 0, [⟨⟨1, 0, 0⟩, 0, 0⟩]⟩ (by decide) (by decide) (by decide),
    (h.1 "u").1⟩

/-! ### C2: list-update lemmas -/

theorem length_listSet (f : α → α) : ∀ (l : List α) (i : Nat), (listSet l i f).length = l.length
  | [], _ => rfl
  | _ :: _, 0 => rfl
  | a :: l, n + 1 => by simp [listSet, length_listSet f l n]

theorem getD_listSet_self (f : α → α) (d : α) :
    ∀ (l : List α) (i : Nat), i < l.length → (listSet l i f).getD i d = f (l.getD i d)
  | a :: l, 0, _ => rfl
  | a :: l, n + 1, h => by
    simp only [listSet, List.getD_cons_succ]
    exact getD_listSet_self f d l n (by simpa using h)

theorem getD_listSet_ne (f : α → α) (d : α) :
    ∀ (l : List α) (i j : Nat), j ≠ i → (listSet l i f).getD j d = l.getD j d
  | [], _, _, _ => by simp [listSet]
  | a :: l, 0, 0, h => absurd rfl h
  | a :: l, 0, j + 1, _ => by simp [listSet]
  | a :: l, i + 1, 0, _ => by simp [listSet]
  | a :: l, i + 1, j + 1, h => by
    simp only [listSet, List.getD_cons_succ]
    exact getD_listSet_ne f d l i j (by omega)

theorem listSet_oob (f : α → α) : ∀ (l : List α) (i : Nat), l.length ≤ i → listSet l i f = l
  | [], _, _ => rfl
  | a :: l, 0, h => absurd h (by simp)
  | a :: l, n + 1, h => by
    simp only [listSet, List.cons.injEq, true_and]
    exact listSet_oob f l n (by simpa using h)

/-- `l'` extends `l` sitewise: same length, and every site's compiled
hopping list in `l'` is the corresponding list in `l` plus a suffix. -/
def HopExt (l l' : List OptSite) : Prop :=
  l'.length = l.length ∧
  ∀ (j : Nat) (d : OptSite), ∃ suf, (l'.getD j d).hoppings = (l.getD j d).hoppings ++ suf

theorem hopExt_refl (l : List OptSite) : HopExt l l :=
  ⟨rfl, fun _ _ => ⟨[], by simp⟩⟩

theorem hopExt_trans {l1 l2 l3 : List OptSite} (h12 : HopExt l1 l2) (h23 : HopExt l2 l3) :
    HopExt l1 l3 := by
  refine ⟨h23.1.trans h12.1, fun j d => ?_⟩
  obtain ⟨s1, hs1⟩ := h12.2 j d
  obtain ⟨s2, hs2⟩ := h23.2 j d
  exact ⟨s1 ++ s2, by rw [hs2, hs1, List.append_assoc]⟩

theorem hopExt_pushHop (l : List OptSite) (i : Nat) (h : Hopping) : HopExt l (pushHop l i h) := by
  refine ⟨length_listSet _ l i, fun j d => ?_⟩
  by_cases hij : j = i
  · subst hij
    by_cases hlt : j < l.length
    · exact ⟨[h], by rw [pushHop, getD_listSet_self _ d l j hlt]⟩
    · exact ⟨[], by rw [pushHop, listSet_oob _ l j (Nat.not_lt.mp hlt), List.append_nil]⟩
  · exact ⟨[], by rw [pushHop, getD_listSet_ne _ d l i j hij, List.append_nil]⟩

theorem HopExt.mem {l l' : List OptSite} (hext : HopExt l l') (j : Nat) (d : OptSite)
    (e : Hopping) (he : e ∈ (l.getD j d).hoppings) : e ∈ (l'.getD j d).hoppings := by
  obtain ⟨suf, hs⟩ := hext.2 j d
  rw [hs]
  exact List.mem_append_left _ he

theorem hopExt_compileTerm (fid : Nat) (acc : List OptSite) (t : HoppingTerm) :
    HopExt acc (compileTerm fid acc t) :=
  hopExt_trans (hopExt_pushHop acc t.from_ ⟨t.relative_index, t.to_, fid, false⟩)
    (hopExt_pushHop _ t.to_ ⟨t.relative_index.neg, t.from_, fid, true⟩)

theorem hopExt_foldl_compileTerm (fid : Nat) :
    ∀ (ts : List HoppingTerm) (acc : List OptSite), HopExt acc (ts.foldl (compileTerm fid) acc)
  | [], acc => hopExt_refl acc
  | t :: ts, acc =>
    hopExt_trans (hopExt_compileTerm fid acc t) (hopExt_foldl_compileTerm fid ts _)

theorem hopExt_foldl_families :
    ∀ (ps : List (String × HoppingFamily)) (acc : List OptSite),
      HopExt acc
        (ps.foldl (fun acc2 p => p.2.terms.foldl (compileTerm p.2.unique_id) acc2) acc)
  | [], acc => hopExt_refl acc
  | p :: ps, acc =>
    hopExt_trans (hopExt_foldl_compileTerm p.2.unique_id p.2.terms acc)
      (hopExt_foldl_families ps _)

theorem mem_fwd_compileTerm (fid : Nat) (acc : List OptSite) (t : HoppingTerm) (d : OptSite)
    (hfrom : t.from_ < acc.length) :
    (⟨t.relative_index, t.to_, fid, false⟩ : Hopping) ∈
      ((compileTerm fid acc t).getD t.from_ d).hoppings := by
  have h1 : (⟨t.relative_index, t.to_, fid, false⟩ : Hopping) ∈
      ((pushHop acc t.from_ ⟨t.relative_index, t.to_, fid, false⟩).getD t.from_ d).hoppings := by
    rw [pushHop, getD_listSet_self _ d acc t.from_ hfrom]
    simp
  exact (hopExt_pushHop _ t.to_ ⟨t.relative_index.neg, t.from_, fid, true⟩).mem t.from_ d _ h1

theorem mem_bwd_compileTerm (fid : Nat) (acc : List OptSite) (t : HoppingTerm) (d : OptSite)
    (hto : t.to_ < acc.length) :
    (⟨t.relative_index.neg, t.from_, fid, true⟩ : Hopping) ∈
      ((compileTerm fid acc t).getD t.to_ d).hoppings := by
  have hlen : t.to_ < (pushHop acc t.from_ ⟨t.relative_index, t.to_, fid, false⟩).length := by
    rw [pushHop, length_listSet]
    exact hto
  rw [compileTerm, pushHop, getD_listSet_self _ d _ t.to_ hlen]
  simp

theorem mem_foldl_compileTerm (fid : Nat) (d : OptSite) :
    ∀ (ts : List HoppingTerm) (acc : List OptSite) (t : HoppingTerm), t ∈ ts →
      t.from_ < acc.length → t.to_ < acc.length →
      (⟨t.relative_index, t.to_, fid, false⟩ : Hopping) ∈
        ((ts.foldl (compileTerm fid) acc).getD t.from_ d).hoppings ∧
      (⟨t.relative_index.neg, t.from_, fid, true⟩ : Hopping) ∈
        ((ts.foldl (compileTerm fid) acc).getD t.to_ d).hoppings := by
  intro ts
  induction ts with
  | nil =>
    intro acc t ht
    exact absurd ht (List.not_mem_nil t)
  | cons s ts ih =>
    intro acc t ht hfrom hto
    rcases List.mem_cons.mp ht with rfl | hmem
    · constructor
      · exact (hopExt_foldl_compileTerm fid ts _).mem _ d _ (mem_fwd_compileTerm fid acc t d hfrom)
      · exact (hopExt_foldl_compileTerm fid ts _).mem _ d _ (mem_bwd_compileTerm fid acc t d hto)
    · have hl : (compileTerm fid acc s).length = acc.length := (hopExt_compileTerm fid acc s).1
      exact ih (compileTerm fid acc s) t hmem (by rw [hl]; exact hfrom) (by rw [hl]; exact hto)

theorem mem_foldl_families (d : OptSite) :
    ∀ (ps : List (String × HoppingFamily)) (acc : List OptSite) (fname : String)
      (fam : HoppingFamily) (t : HoppingTerm),
      (fname, fam) ∈ ps → t ∈ fam.terms → t.from_ < acc.length → t.to_ < acc.length →
      (⟨t.relative_index, t.to_, fam.unique_id, false⟩ : Hopping) ∈
        ((ps.foldl (fun acc2 p => p.2.terms.foldl (compileTerm p.2.unique_id) acc2)
          acc).getD t.from_ d).hoppings ∧
      (⟨t.relative_index.neg, t.from_, fam.unique_id, true⟩ : Hopping) ∈
        ((ps.foldl (fun acc2 p => p.2.terms.foldl (compileTerm p.2.unique_id) acc2)
          acc).getD t.to_ d).hoppings := by
  intro ps
  induction ps with
  | nil =>
    intro acc fname fam t hf
    exact absurd hf (List.not_mem_nil _)
  | cons p ps ih =>
    intro acc fname fam t hf ht hfrom hto
    rcases List.mem_cons.mp hf with rfl | hmem
    · have hin := mem_foldl_compileTerm fam.unique_id d fam.terms acc t ht hfrom hto
      exact ⟨(hopExt_foldl_families ps _).mem _ d _ hin.1,
        (hopExt_foldl_families ps _).mem _ d _ hin.2⟩
    · have hl := (hopExt_foldl_compileTerm p.2.unique_id p.2.terms acc).1
      exact ih _ fname fam t hmem ht (by rw [hl]; exact hfrom) (by rw [hl]; exact hto)

/-! ### C2: counting lemmas -/

theorem sumHops_pushHop (h : Hopping) :
    ∀ (l : List OptSite) (i : Nat), i < l.length → sumHops (pushHop l i h) = sumHops l + 1
  | a :: l, 0, _ => by
    simp [sumHops, pushHop, listSet]
    omega
  | a :: l, n + 1, hlt => by
    have := sumHops_pushHop h l n (by simpa using hlt)
    simp only [pushHop, listSet, sumHops, List.map_cons, List.sum_cons] at this ⊢
    omega

theorem sumHops_compileTerm (fid : Nat) (acc : List OptSite) (t : HoppingTerm)
    (hfrom : t.from_ < acc.length) (hto : t.to_ < acc.length) :
    sumHops (compileTerm fid acc t) = sumHops acc + 2 := by
  have h1 := sumHops_pushHop (⟨t.relative_index, t.to_, fid, false⟩ : Hopping) acc t.from_ hfrom
  have hlen : (pushHop acc t.from_ ⟨t.relative_index, t.to_, fid, false⟩).length = acc.length := by
    rw [pushHop, length_listSet]
  have h2 := sumHops_pushHop (⟨t.relative_index.neg, t.from_, fid, true⟩ : Hopping)
    (pushHop acc t.from_ ⟨t.relative_index, t.to_, fid, false⟩) t.to_ (by rw [hlen]; exact hto)
  rw [compileTerm, h2, h1]

theorem sumHops_foldl_compileTerm (fid : Nat) :
    ∀ (ts : List HoppingTerm) (acc : List OptSite),
      (∀ t ∈ ts, t.from_ < acc.length ∧ t.to_ < acc.length) →
      sumHops (ts.foldl (compileTerm fid) acc) = sumHops acc + 2 * ts.length := by
  intro ts
  induction ts with
  | nil => intro acc _; simp
  | cons t ts ih =>
    intro acc hids
    have hl : (compileTerm fid acc t).length = acc.length := (hopExt_compileTerm fid acc t).1
    have hstep := sumHops_compileTerm fid acc t (hids t (by simp)).1 (hids t (by simp)).2
    have hrest := ih (compileTerm fid acc t) (fun s hs => by
      rw [hl]
      exact hids s (List.mem_cons_of_mem t hs))
    simp only [List.foldl_cons] at *
    rw [hrest, hstep, List.length_cons]
    ring

theorem sumHops_foldl_families :
    ∀ (ps : List (String × HoppingFamily)) (acc : List OptSite),
      (∀ p ∈ ps, ∀ t ∈ p.2.terms, t.from_ < acc.length ∧ t.to_ < acc.length) →
      sumHops (ps.foldl (fun acc2 p => p.2.terms.foldl (compileTerm p.2.unique_id) acc2) acc)
        = sumHops acc + 2 * (ps.map (fun p => p.2.terms.length)).sum := by
  intro ps
  induction ps with
  | nil => intro acc _; simp
  | cons p ps ih =>
    intro acc hids
    have hl := (hopExt_foldl_compileTerm p.2.unique_id p.2.terms acc).1
    have hstep := sumHops_foldl_compileTerm p.2.unique_id p.2.terms acc
      (fun t ht => hids p (by simp) t ht)
    have hrest := ih (p.2.terms.foldl (compileTerm p.2.unique_id) acc) (fun q hq t ht => by
      rw [hl]
      exact hids q (List.mem_cons_of_mem p hq) t ht)
    simp only [List.foldl_cons] at *
    rw [hrest, hstep, List.map_cons, List.sum_cons]
    ring

theorem length_foldl_listSet :
    ∀ (ps : List (String × Sublattice)) (acc : List OptSite),
      (ps.foldl (fun acc2 p => listSet acc2 p.2.unique_id
        (fun s => { s with position := p.2.position, alias_ := p.2.alias_id })) acc).length
        = acc.length
  | [], _ => rfl
  | p :: ps, acc => by
    rw [List.foldl_cons, length_foldl_listSet ps _, length_listSet]

theorem length_baseSites (L : Lattice) : (baseSites L).length = nsub L := by
  rw [baseSites, length_foldl_listSet]
  simp [initSites]

theorem sumHops_listSet_preserve (f : OptSite → OptSite)
    (hf : ∀ s, ((f s).hoppings).length = s.hoppings.length) :
    ∀ (l : List OptSite) (i : Nat), sumHops (listSet l i f) = sumHops l
  | [], _ => rfl
  | a :: l, 0 => by simp [listSet, sumHops, hf a]
  | a :: l, n + 1 => by
    have := sumHops_listSet_preserve f hf l n
    simp only [listSet, sumHops, List.map_cons, List.sum_cons] at this ⊢
    omega

theorem sumHops_foldl_listSet :
    ∀ (ps : List (String × Sublattice)) (acc : List OptSite),
      sumHops (ps.foldl (fun acc2 p => listSet acc2 p.2.unique_id
        (fun s => { s with position := p.2.position, alias_ := p.2.alias_id })) acc)
        = sumHops acc
  | [], _ => rfl
  | p :: ps, acc => by
    rw [List.foldl_cons, sumHops_foldl_listSet ps _,
      sumHops_listSet_preserve
        (fun s => { position := p.2.position, alias_ := p.2.alias_id, hoppings := s.hoppings })
        (fun s => rfl)]

theorem sumHops_replicate_empty : ∀ n : Nat, sumHops (List.replicate n OptSite.empty) = 0
  | 0 => rfl
  | n + 1 => by
    have := sumHops_replicate_empty n
    simp only [List.replicate_succ, sumHops, List.map_cons, List.sum_cons] at this ⊢
    rw [this]
    rfl

theorem sumHops_baseSites (L : Lattice) : sumHops (baseSites L) = 0 := by
  rw [baseSites, sumHops_foldl_listSet]
  exact sumHops_replicate_empty (nsub L)

/-! ### C2 -/

/-- C2: for every term `(d, A, B)` of a registered family `F` (with site
indices in range), the compiled structure contains the forward entry
`(d, B, F, conjugate := false)` in the neighbor list of the site at index
`A` and the conjugate entry `(−d, A, F, conjugate := true)` in the
neighbor list of the site at index `B`; and the total number of compiled
entries over all sites is exactly twice the total number of registered
terms, so no other compiled entry is produced from any term. -/
theorem optimized_structure_two_entries_per_term (L : Lattice)
    (hids : ∀ p ∈ L.hoppings, ∀ t ∈ p.2.terms, t.from_ < nsub L ∧ t.to_ < nsub L)
    (fname : String) (fam : HoppingFamily) (t : HoppingTerm)
    (hf : (fname, fam) ∈ L.hoppings) (ht : t ∈ fam.terms) :
    (⟨t.relative_index, t.to_, fam.unique_id, false⟩ : Hopping) ∈
      ((optimized_structure L).getD t.from_ OptSite.empty).hoppings ∧
    (⟨t.relative_index.neg, t.from_, fam.unique_id, true⟩ : Hopping) ∈
      ((optimized_structure L).getD t.to_ OptSite.empty).hoppings ∧
    sumHops (optimized_structure L) = 2 * totalTerms L := by
  have hlb := length_baseSites L
  have hmem := mem_foldl_families OptSite.empty L.hoppings (baseSites L) fname fam t hf ht
    (by rw [hlb]; exact (hids _ hf t ht).1) (by rw [hlb]; exact (hids _ hf t ht).2)
  refine ⟨hmem.1, hmem.2, ?_⟩
  have hcount := sumHops_foldl_families L.hoppings (baseSites L)
    (fun p hp t' ht' => by rw [hlb]; exact hids p hp t' ht')
  rw [optimized_structure, hcount, sumHops_baseSites, totalTerms]
  omega

/-- Witness for C2 at the spec's square-lattice scenario: the single term
`((1,0,0), A, A)` of family `"t"` yields both compiled entries at site 0
and the compiled structure holds exactly two entries in total. -/
theorem optimized_structure_two_entries_per_term_witness :
    (⟨⟨1, 0, 0⟩, 0, 0, false⟩ : Hopping) ∈
      ((optimized_structure latSqFull).getD 0 OptSite.empty).hoppings ∧
    (⟨Idx3.neg ⟨1, 0, 0⟩, 0, 0, true⟩ : Hopping) ∈
      ((optimized_structure latSqFull).getD 0 OptSite.empty).hoppings ∧
    sumHops (optimized_structure latSqFull) = 2 * totalTerms latSqFull :=
  optimized_structure_two_entries_per_term latSqFull (by decide) "t"
    ⟨matScalar ⟨-1, 0⟩, 0, [⟨⟨1, 0, 0⟩, 0, 0⟩]⟩ ⟨⟨1, 0, 0⟩, 0, 0⟩ (by decide) (by decide)

end PB
